import Mathlib

/-!
Shallow embedding of the validator-tracking core of `validation-logger`
(`validation-tracker.ts`): the `ValidationStream` websocket message dispatch,
the `Network` registry state (`validators`, `manifestKeys`, `names`,
`lastValidatorListSequence`), the stream-manifest handler `onManifestReceived`
and the roster-refresh path `getUNL`.

JavaScript string-keyed objects are modelled as association lists with
insertion-order preserving update (`objSet`), first-match lookup (`objGet`) and
key deletion (`objDelete`).  External effects are made explicit: the Data API
name lookup becomes an oracle `String → Option String` (the `domain` field the
HTTP call would yield, `none` when the request fails or has no domain), the
`moment()` receive time becomes a `Nat` parameter, and the fallible decoding
steps of a roster entry (`hexToBase58` of the validator key, `codec.decode` of
the manifest) become `Option`-valued fields of the entry, `none` meaning the
decode throws.
-/

namespace ValidationLogger

/-- JS object lookup `m[k]`: first binding of the key, if any. -/
def objGet {α : Type} (m : List (String × α)) (k : String) : Option α :=
  match m with
  | [] => none
  | (k', v) :: rest => if k' = k then some v else objGet rest k

/-- JS object assignment `m[k] = v`: overwrite in place, else append
(insertion order preserved, as for non-index string keys). -/
def objSet {α : Type} (m : List (String × α)) (k : String) (v : α) :
    List (String × α) :=
  match m with
  | [] => [(k, v)]
  | (k', v') :: rest =>
    if k' = k then (k, v) :: rest else (k', v') :: objSet rest k v

/-- JS `delete m[k]`: drop the bindings of the key. -/
def objDelete {α : Type} (m : List (String × α)) (k : String) :
    List (String × α) :=
  match m with
  | [] => []
  | (k', v) :: rest =>
    if k' = k then objDelete rest k else (k', v) :: objDelete rest k

/-- The `remove(array, element)` helper of the source: drop the first
occurrence of `element`, if present (indexOf + splice). -/
def remove (array : List String) (element : String) : List String :=
  match array with
  | [] => []
  | x :: xs => if x = element then xs else x :: remove xs element

/-- One tracked validator: current signing key and manifest sequence
(the value type of the `validators` object). -/
structure ValidatorEntry where
  signing_key : String
  Sequence : Nat
deriving DecidableEq, Repr

/-- The mutable registry state of a `Network` instance. -/
structure NetworkState where
  lastValidatorListSequence : Nat
  validators : List (String × ValidatorEntry)
  manifestKeys : List (String × String)
  names : List (String × String)
deriving DecidableEq, Repr

/-- The freshly constructed registry (all fields at their initialisers). -/
def NetworkState.initial : NetworkState := ⟨0, [], [], []⟩

/-- Result of the external Data API lookup for an identity: the `domain`
field of the response, or `none` on failure / absent domain. -/
def NameOracle : Type := String → Option String

/-- `fetchName`: cached name lookup.  On a cache hit, return the cached name;
on a miss, consult the Data API (the oracle); a returned domain is cached and
returned, otherwise the identity itself is returned uncached. -/
def fetchName (o : NameOracle) (names : List (String × String))
    (validation_public_key_base58 : String) : String × List (String × String) :=
  match objGet names validation_public_key_base58 with
  | some n => (n, names)
  | none =>
    match o validation_public_key_base58 with
    | some domain =>
      (domain, objSet names validation_public_key_base58 domain)
    | none => (validation_public_key_base58, names)

/-- The payload of the `onUnlData` callback. -/
structure UnlData where
  isDuringStartup : Bool
  isNewValidator : Bool
  isNewManifest : Bool
  validatorName : String
  validation_public_key_base58 : String
  signing_key : String
  Sequence : Nat
  isFromManifestsStream : Bool
deriving DecidableEq, Repr

/-- The stream-manifest handler `onManifestReceived` of
`Network.subscribeToRippleds`: applied only when `master_key` is already
tracked and carries a strictly larger sequence; then the old signing key is
deleted from `manifestKeys`, the entry is updated in place, the new signing
key is indexed, and one `onUnlData` event is emitted. -/
def onManifestReceived (o : NameOracle) (st : NetworkState)
    (master_key : String) (seq : Nat) (signing_key : String) :
    NetworkState × List UnlData :=
  match objGet st.validators master_key with
  | none => (st, [])
  | some stored =>
    if stored.Sequence < seq then
      let manifestKeys1 := objDelete st.manifestKeys stored.signing_key
      let validators1 := objSet st.validators master_key ⟨signing_key, seq⟩
      let manifestKeys2 := objSet manifestKeys1 signing_key master_key
      let fn := fetchName o st.names master_key
      (⟨st.lastValidatorListSequence, validators1, manifestKeys2, fn.2⟩,
        [⟨false, false, true, fn.1, master_key, signing_key, seq, true⟩])
    else (st, [])

/-- The decoded form of a roster entry's manifest (`codec.decode`):
`SigningPubKey` is modelled already text-encoded (`hexToBase58` applied). -/
structure Manifest where
  SigningPubKey : String
  Sequence : Nat
deriving DecidableEq, Repr

/-- One entry of the fetched validator list, with its two fallible decoding
steps made explicit: `key` is the result of `hexToBase58` on
`validation_public_key` (`none` = the decode throws), `manifest` the result of
base64/binary-decoding the manifest (`none` = the decode throws). -/
structure RosterEntry where
  key : Option String
  manifest : Option Manifest
deriving DecidableEq, Repr

/-- The decoded roster blob: its version and its entry list. -/
structure ValidatorList where
  sequence : Nat
  validators : List RosterEntry
deriving DecidableEq, Repr

/-- The mutable locals of the `getUNL` entry loop: the registry being mutated,
the shrinking `validatorsToDelete` array, and the events emitted so far. -/
structure LoopState where
  st : NetworkState
  toDelete : List String
  events : List UnlData
deriving DecidableEq, Repr

/-- Process one roster entry, as in the body of the `for` loop of `getUNL`.
The returned `Bool` is `false` when a decode throws; in that case the loop
aborts with whatever was already mutated left in place. -/
def stepEntry (o : NameOracle) (isDuringStartup : Bool) (ls : LoopState)
    (e : RosterEntry) : LoopState × Bool :=
  match e.key with
  | none => (ls, false)
  | some key =>
    let ls1 : LoopState := ⟨ls.st, remove ls.toDelete key, ls.events⟩
    match e.manifest with
    | none => (ls1, false)
    | some m =>
      match objGet ls1.st.validators key with
      | some stored =>
        if stored.Sequence < m.Sequence then
          let fn := fetchName o ls1.st.names key
          let validators1 :=
            objSet ls1.st.validators key ⟨m.SigningPubKey, m.Sequence⟩
          let manifestKeys1 := objSet ls1.st.manifestKeys m.SigningPubKey key
          let ev : UnlData :=
            ⟨isDuringStartup, false, true, fn.1, key, m.SigningPubKey,
              m.Sequence, false⟩
          (⟨⟨ls1.st.lastValidatorListSequence, validators1, manifestKeys1,
              fn.2⟩, ls1.toDelete, ls1.events ++ [ev]⟩, true)
        else (ls1, true)
      | none =>
        let fn := fetchName o ls1.st.names key
        let validators1 :=
          objSet ls1.st.validators key ⟨m.SigningPubKey, m.Sequence⟩
        let manifestKeys1 := objSet ls1.st.manifestKeys m.SigningPubKey key
        let ev : UnlData :=
          ⟨isDuringStartup, true, true, fn.1, key, m.SigningPubKey,
            m.Sequence, false⟩
        (⟨⟨ls1.st.lastValidatorListSequence, validators1, manifestKeys1,
            fn.2⟩, ls1.toDelete, ls1.events ++ [ev]⟩, true)

/-- The `for (const validator of validatorList.validators)` loop of `getUNL`:
runs `stepEntry` over the entries, stopping at the first decode failure. -/
def processEntries (o : NameOracle) (isDuringStartup : Bool) :
    LoopState → List RosterEntry → LoopState × Bool
  | ls, [] => (ls, true)
  | ls, e :: rest =>
    let r := stepEntry o isDuringStartup ls e
    if r.2 then processEntries o isDuringStartup r.1 rest else (r.1, false)

/-- Outcome of applying one fetched-and-decoded validator list: the final
registry, the `onUnlData` events emitted (in order), and whether the whole
application ran without a decode exception. -/
structure ApplyResult where
  state : NetworkState
  events : List UnlData
  completed : Bool
deriving DecidableEq, Repr

/-- The body of `getUNL`'s `.then` callback after the blob has been decoded:
discard the list wholesale when its `sequence` is stale; otherwise store the
new version, run the entry loop, and — only if no entry decode threw — delete
every previously tracked identity not seen in the entries (their
`manifestKeys` entries are left untouched). -/
def getUNLApply (o : NameOracle) (st : NetworkState) (vl : ValidatorList) :
    ApplyResult :=
  if vl.sequence ≤ st.lastValidatorListSequence then ⟨st, [], true⟩
  else
    let st1 : NetworkState :=
      ⟨vl.sequence, st.validators, st.manifestKeys, st.names⟩
    let validatorsToDelete := st1.validators.map Prod.fst
    let isDuringStartup := validatorsToDelete.isEmpty
    let r := processEntries o isDuringStartup ⟨st1, validatorsToDelete, []⟩
      vl.validators
    if r.2 then
      ⟨⟨r.1.st.lastValidatorListSequence,
          r.1.toDelete.foldl objDelete r.1.st.validators,
          r.1.st.manifestKeys, r.1.st.names⟩, r.1.events, true⟩
    else ⟨r.1.st, r.1.events, false⟩

/-- What a `getUNL` cycle yielded before entry processing: the HTTPS request
failed, the base64/JSON decode of the blob threw, or a decoded list. -/
inductive FetchOutcome
  | netFail
  | blobDecodeFail
  | ok (vl : ValidatorList)
deriving DecidableEq, Repr

/-- A whole `getUNL` cycle.  A failed request never runs the `.then` callback
and a blob-decode exception throws before any state is touched, so both leave
the registry unchanged; a decoded list is applied by `getUNLApply`. -/
def getUNLRun (o : NameOracle) (st : NetworkState) :
    FetchOutcome → ApplyResult
  | .netFail => ⟨st, [], false⟩
  | .blobDecodeFail => ⟨st, [], false⟩
  | .ok vl => getUNLApply o st vl

/-- A validation vote from the `validations` stream (`ValidationMessage`).
`timestamp` is the locally attached receive time (`moment()`), modelled as a
`Nat`; it is `none` until the message handler sets it. -/
structure ValidationMessage where
  amendments : Option (List String)
  base_fee : Option Nat
  flags : Nat
  full : Bool
  ledger_hash : String
  ledger_index : String
  load_fee : Option Nat
  reserve_base : Option Nat
  reserve_inc : Option Nat
  signature : String
  signing_time : Nat
  validation_public_key : String
  timestamp : Option Nat
deriving DecidableEq, Repr

/-- A manifest from the `manifests` stream (`ManifestMessage`). -/
structure ManifestMessage where
  master_key : String
  signing_key : String
  seq : Nat
  signature : String
  master_signature : String
deriving DecidableEq, Repr

/-- An inbound websocket frame after `JSON.parse`, discriminated exactly as the
`message` handler of `ValidationStream` does: by `type`
(`validationReceived` / `manifestReceived`), by `error === 'unknownStream'`,
or anything else. -/
inductive InboundMessage
  | validationReceived (vm : ValidationMessage)
  | manifestReceived (mm : ManifestMessage)
  | unknownStreamError
  | unexpected (raw : String)
deriving DecidableEq, Repr

/-- Why `onClose` was invoked. -/
inductive CloseCause
  | heartbeatTimeout
  | unknownStreamMsg
  | closeFrame (code : Nat) (reason : String)
deriving DecidableEq, Repr

/-- Observable effects of a `Network`-wired message handler. -/
inductive NetworkOutput
  | forwardedValidation (vm : ValidationMessage)
  | unlEvent (e : UnlData)
  | terminatedWs
  | closedWith (cause : CloseCause)
  | loggedUnexpected (raw : String)
deriving DecidableEq, Repr

/-- The `message` handler of a `ValidationStream` as wired by
`Network.subscribeToRippleds`: a validation vote gets `timestamp = moment()`
attached and goes straight to the external `onValidationReceived` callback; a
manifest goes to `onManifestReceived`; an `unknownStream` error terminates
the socket and fires `onClose`; anything else is only logged. -/
def handleMessage (o : NameOracle) (st : NetworkState) (now : Nat) :
    InboundMessage → NetworkState × List NetworkOutput
  | .validationReceived vm =>
    (st, [.forwardedValidation
      { vm with timestamp := some now }])
  | .manifestReceived mm =>
    let r := onManifestReceived o st mm.master_key mm.seq mm.signing_key
    (r.1, r.2.map .unlEvent)
  | .unknownStreamError =>
    (st, [.terminatedWs, .closedWith .unknownStreamMsg])
  | .unexpected raw => (st, [.loggedUnexpected raw])

/-- Primitive steps a `ValidationStream` callback can take (timer management,
socket termination, user-callback invocations). -/
inductive StreamAction
  | clearPingTimer
  | armPingTimer
  | terminateWs
  | invokeOnClose (cause : CloseCause)
  | logWarning
deriving DecidableEq, Repr

/-- The handlers the `ValidationStream` constructor registers for the
websocket `close` event, in registration order.  With `useHeartbeat` on (the
default) there are two: the one inside the heartbeat block (clear the ping
timer, call `onClose`) and the unconditional one further down (call
`onClose`); with it off, only the unconditional one. -/
def closeHandlers (useHeartbeat : Bool) :
    List (Nat → String → List StreamAction) :=
  (if useHeartbeat then
    [fun code reason =>
      [.clearPingTimer, .invokeOnClose (.closeFrame code reason)]]
  else []) ++
  [fun code reason => [.invokeOnClose (.closeFrame code reason)]]

/-- Actions performed when the websocket emits a `close` event with the given
code and reason: every registered `close` handler runs, in order. -/
def emitCloseEvent (useHeartbeat : Bool) (code : Nat) (reason : String) :
    List StreamAction :=
  (closeHandlers useHeartbeat).flatMap (fun h => h code reason)

/-- Actions performed when the heartbeat deadline timer expires: log, call
`terminate()` on the socket, and call `onClose` with the timeout cause
(`terminate` will additionally make the socket emit a `close` event with
code 1006 later). -/
def pingTimeoutExpired : List StreamAction :=
  [.logWarning, .terminateWs, .invokeOnClose .heartbeatTimeout]

/-- Number of `onClose` invocations among a list of actions. -/
def countOnClose (actions : List StreamAction) : Nat :=
  (actions.filter (fun a =>
    match a with
    | .invokeOnClose _ => true
    | _ => false)).length

/-- The name oracle for concrete runs: every Data API lookup fails (the
`.catch` path of `fetchName`), so names fall back to the identity itself. -/
def oNone : NameOracle := fun _ => none

/-- A concrete validation vote signed with signing key `k1`, as it arrives
from the `validations` stream (no timestamp attached yet). -/
def voteK1 : ValidationMessage :=
  ⟨none, none, 2147483649, true, "LEDGERHASH", "1234", none, none, none,
    "SIG", 600000000, "k1", none⟩

/-! ### Basic lemmas about the object-map operations -/

theorem objGet_objSet_self {α : Type} (m : List (String × α)) (k : String)
    (v : α) : objGet (objSet m k v) k = some v := by
  induction m with
  | nil => simp [objSet, objGet]
  | cons p rest ih =>
    by_cases h : p.1 = k
    · simp [objSet, objGet, h]
    · simp [objSet, objGet, h, ih]

theorem objGet_objSet_ne {α : Type} (m : List (String × α)) (k k' : String)
    (v : α) (h : k' ≠ k) : objGet (objSet m k v) k' = objGet m k' := by
  induction m with
  | nil => simp [objSet, objGet, Ne.symm h]
  | cons p rest ih =>
    by_cases hp : p.1 = k
    · subst hp
      simp [objSet, objGet, Ne.symm h]
    · simp [objSet, objGet, hp, ih]

theorem isSome_objGet_objSet {α : Type} (m : List (String × α))
    (k k' : String) (v : α) :
    (objGet (objSet m k v) k').isSome ↔ k' = k ∨ (objGet m k').isSome := by
  by_cases h : k' = k
  · subst h; simp [objGet_objSet_self]
  · simp [objGet_objSet_ne m k k' v h, h]

theorem objGet_objDelete_self {α : Type} (m : List (String × α)) (k : String) :
    objGet (objDelete m k) k = none := by
  induction m with
  | nil => simp [objDelete, objGet]
  | cons p rest ih =>
    by_cases h : p.1 = k
    · simpa [objDelete, objGet, h] using ih
    · simpa [objDelete, objGet, h] using ih

theorem objGet_objDelete_ne {α : Type} (m : List (String × α))
    (k k' : String) (h : k' ≠ k) :
    objGet (objDelete m k) k' = objGet m k' := by
  induction m with
  | nil => simp [objDelete, objGet]
  | cons p rest ih =>
    by_cases hp : p.1 = k
    · subst hp
      simp [objDelete, objGet, Ne.symm h, ih]
    · by_cases hp' : p.1 = k'
      · simp [objDelete, objGet, hp, hp', h]
      · simp [objDelete, objGet, hp, hp', ih]

theorem isSome_objGet_objDelete {α : Type} (m : List (String × α))
    (k k' : String) :
    (objGet (objDelete m k) k').isSome ↔ (objGet m k').isSome ∧ k' ≠ k := by
  by_cases h : k' = k
  · subst h; simp [objGet_objDelete_self]
  · simp [objGet_objDelete_ne m k k' h, h]

theorem isSome_objGet_iff_mem {α : Type} (m : List (String × α)) (k : String) :
    (objGet m k).isSome ↔ k ∈ m.map Prod.fst := by
  induction m with
  | nil => simp [objGet]
  | cons p rest ih =>
    by_cases h : p.1 = k
    · simp [objGet, h]
    · simp [objGet, h, ih, Ne.symm h]

theorem objGet_foldl_objDelete_not_mem {α : Type} (dels : List String)
    (m : List (String × α)) (k : String) (h : k ∉ dels) :
    objGet (dels.foldl objDelete m) k = objGet m k := by
  induction dels generalizing m with
  | nil => rfl
  | cons d rest ih =>
    have hne : k ≠ d := fun hk => h (hk ▸ List.mem_cons_self d rest)
    have hrest : k ∉ rest := fun hk => h (List.mem_cons_of_mem d hk)
    simpa [List.foldl_cons, ih (objDelete m d) hrest] using
      objGet_objDelete_ne m d k hne

theorem isSome_objGet_foldl_objDelete {α : Type} (dels : List String)
    (m : List (String × α)) (k : String) :
    (objGet (dels.foldl objDelete m) k).isSome ↔
      (objGet m k).isSome ∧ k ∉ dels := by
  induction dels generalizing m with
  | nil => simp
  | cons d rest ih =>
    by_cases h : k = d
    · subst h
      simp only [List.foldl_cons, ih (objDelete m k)]
      simp [isSome_objGet_objDelete]
    · simp only [List.foldl_cons, ih (objDelete m d)]
      simp [isSome_objGet_objDelete, h]

theorem mem_remove_iff (l : List String) (hnd : l.Nodup) (a b : String) :
    a ∈ remove l b ↔ a ∈ l ∧ a ≠ b := by
  induction l with
  | nil => simp [remove]
  | cons x xs ih =>
    have hx : x ∉ xs := (List.nodup_cons.mp hnd).1
    have hxs : xs.Nodup := (List.nodup_cons.mp hnd).2
    by_cases hb : x = b
    · subst hb
      simp only [remove, if_pos rfl]
      constructor
      · intro ha
        exact ⟨List.mem_cons_of_mem x ha, fun he => hx (he ▸ ha)⟩
      · rintro ⟨ha, hne⟩
        rcases List.mem_cons.mp ha with h | h
        · exact absurd h hne
        · exact h
    · simp only [remove, if_neg hb, List.mem_cons, ih hxs]
      constructor
      · rintro (rfl | ⟨ha, hne⟩)
        · exact ⟨Or.inl rfl, fun he => hb (he ▸ rfl)⟩
        · exact ⟨Or.inr ha, hne⟩
      · rintro ⟨rfl | ha, hne⟩
        · exact Or.inl rfl
        · exact Or.inr ⟨ha, hne⟩

theorem nodup_remove (l : List String) (hnd : l.Nodup) (b : String) :
    (remove l b).Nodup := by
  induction l with
  | nil => simp [remove]
  | cons x xs ih =>
    have hx : x ∉ xs := (List.nodup_cons.mp hnd).1
    have hxs : xs.Nodup := (List.nodup_cons.mp hnd).2
    by_cases hb : x = b
    · simpa [remove, hb] using hxs
    · have hr : remove (x :: xs) b = x :: remove xs b := by
        simp [remove, hb]
      rw [hr]
      refine List.nodup_cons.mpr ⟨?_, ih hxs⟩
      intro hmem
      exact hx ((mem_remove_iff xs hxs x b).mp hmem).1

/-! ### Shape lemmas for one step of the `getUNL` entry loop -/

theorem stepEntry_key_none (o : NameOracle) (flag : Bool) (ls : LoopState)
    (e : RosterEntry) (hk : e.key = none) :
    stepEntry o flag ls e = (ls, false) := by
  rcases e with ⟨k?, m?⟩
  cases hk
  rfl

theorem stepEntry_manifest_none (o : NameOracle) (flag : Bool)
    (ls : LoopState) (e : RosterEntry) (key : String)
    (hk : e.key = some key) (hm : e.manifest = none) :
    stepEntry o flag ls e =
      (⟨ls.st, remove ls.toDelete key, ls.events⟩, false) := by
  rcases e with ⟨k?, m?⟩
  cases hk
  cases hm
  rfl

theorem stepEntry_stale (o : NameOracle) (flag : Bool) (ls : LoopState)
    (e : RosterEntry) (key : String) (m : Manifest)
    (stored : ValidatorEntry) (hk : e.key = some key)
    (hm : e.manifest = some m) (hg : objGet ls.st.validators key = some stored)
    (hseq : ¬ stored.Sequence < m.Sequence) :
    stepEntry o flag ls e =
      (⟨ls.st, remove ls.toDelete key, ls.events⟩, true) := by
  rcases e with ⟨k?, m?⟩
  cases hk
  cases hm
  simp [stepEntry, hg, hseq]

theorem stepEntry_update (o : NameOracle) (flag : Bool) (ls : LoopState)
    (e : RosterEntry) (key : String) (m : Manifest)
    (stored : ValidatorEntry) (hk : e.key = some key)
    (hm : e.manifest = some m) (hg : objGet ls.st.validators key = some stored)
    (hseq : stored.Sequence < m.Sequence) :
    stepEntry o flag ls e =
      (⟨⟨ls.st.lastValidatorListSequence,
          objSet ls.st.validators key ⟨m.SigningPubKey, m.Sequence⟩,
          objSet ls.st.manifestKeys m.SigningPubKey key,
          (fetchName o ls.st.names key).2⟩,
        remove ls.toDelete key,
        ls.events ++ [⟨flag, false, true, (fetchName o ls.st.names key).1,
          key, m.SigningPubKey, m.Sequence, false⟩]⟩, true) := by
  rcases e with ⟨k?, m?⟩
  cases hk
  cases hm
  simp [stepEntry, hg, hseq]

theorem stepEntry_create (o : NameOracle) (flag : Bool) (ls : LoopState)
    (e : RosterEntry) (key : String) (m : Manifest) (hk : e.key = some key)
    (hm : e.manifest = some m) (hg : objGet ls.st.validators key = none) :
    stepEntry o flag ls e =
      (⟨⟨ls.st.lastValidatorListSequence,
          objSet ls.st.validators key ⟨m.SigningPubKey, m.Sequence⟩,
          objSet ls.st.manifestKeys m.SigningPubKey key,
          (fetchName o ls.st.names key).2⟩,
        remove ls.toDelete key,
        ls.events ++ [⟨flag, true, true, (fetchName o ls.st.names key).1,
          key, m.SigningPubKey, m.Sequence, false⟩]⟩, true) := by
  rcases e with ⟨k?, m?⟩
  cases hk
  cases hm
  simp [stepEntry, hg]

/-! ### Derived facts about one loop step -/

theorem stepEntry_last (o : NameOracle) (flag : Bool) (ls : LoopState)
    (e : RosterEntry) :
    ((stepEntry o flag ls e).1).st.lastValidatorListSequence
      = ls.st.lastValidatorListSequence := by
  rcases hk : e.key with _ | key
  · rw [stepEntry_key_none o flag ls e hk]
  · rcases hm : e.manifest with _ | m
    · rw [stepEntry_manifest_none o flag ls e key hk hm]
    · rcases hg : objGet ls.st.validators key with _ | stored
      · rw [stepEntry_create o flag ls e key m hk hm hg]
      · by_cases hseq : stored.Sequence < m.Sequence
        · rw [stepEntry_update o flag ls e key m stored hk hm hg hseq]
        · rw [stepEntry_stale o flag ls e key m stored hk hm hg hseq]

theorem stepEntry_validators_mono (o : NameOracle) (flag : Bool)
    (ls : LoopState) (e : RosterEntry) (k : String)
    (h : (objGet ls.st.validators k).isSome) :
    (objGet ((stepEntry o flag ls e).1).st.validators k).isSome := by
  rcases hk : e.key with _ | key
  · rw [stepEntry_key_none o flag ls e hk]; exact h
  · rcases hm : e.manifest with _ | m
    · rw [stepEntry_manifest_none o flag ls e key hk hm]; exact h
    · rcases hg : objGet ls.st.validators key with _ | stored
      · rw [stepEntry_create o flag ls e key m hk hm hg]
        exact (isSome_objGet_objSet _ _ _ _).mpr (Or.inr h)
      · by_cases hseq : stored.Sequence < m.Sequence
        · rw [stepEntry_update o flag ls e key m stored hk hm hg hseq]
          exact (isSome_objGet_objSet _ _ _ _).mpr (Or.inr h)
        · rw [stepEntry_stale o flag ls e key m stored hk hm hg hseq]; exact h

theorem stepEntry_ok_validators_iff (o : NameOracle) (flag : Bool)
    (ls : LoopState) (e : RosterEntry)
    (hok : (stepEntry o flag ls e).2 = true) (k : String) :
    (objGet ((stepEntry o flag ls e).1).st.validators k).isSome ↔
      ((objGet ls.st.validators k).isSome ∨ e.key = some k) := by
  rcases hk : e.key with _ | key
  · rw [stepEntry_key_none o flag ls e hk] at hok
    exact absurd hok (by simp)
  · rcases hm : e.manifest with _ | m
    · rw [stepEntry_manifest_none o flag ls e key hk hm] at hok
      exact absurd hok (by simp)
    · rcases hg : objGet ls.st.validators key with _ | stored
      · rw [stepEntry_create o flag ls e key m hk hm hg]
        rw [isSome_objGet_objSet]
        simp only [hk, Option.some.injEq]
        constructor
        · rintro (rfl | h)
          · exact Or.inr rfl
          · exact Or.inl h
        · rintro (h | rfl)
          · exact Or.inr h
          · exact Or.inl rfl
      · by_cases hseq : stored.Sequence < m.Sequence
        · rw [stepEntry_update o flag ls e key m stored hk hm hg hseq]
          rw [isSome_objGet_objSet]
          simp only [hk, Option.some.injEq]
          constructor
          · rintro (rfl | h)
            · exact Or.inr rfl
            · exact Or.inl h
          · rintro (h | rfl)
            · exact Or.inr h
            · exact Or.inl rfl
        · rw [stepEntry_stale o flag ls e key m stored hk hm hg hseq]
          simp only [hk, Option.some.injEq]
          constructor
          · exact Or.inl
          · rintro (h | rfl)
            · exact h
            · simp [hg]

theorem stepEntry_manifestKeys_mono (o : NameOracle) (flag : Bool)
    (ls : LoopState) (e : RosterEntry) (sk : String)
    (h : (objGet ls.st.manifestKeys sk).isSome) :
    (objGet ((stepEntry o flag ls e).1).st.manifestKeys sk).isSome := by
  rcases hk : e.key with _ | key
  · rw [stepEntry_key_none o flag ls e hk]; exact h
  · rcases hm : e.manifest with _ | m
    · rw [stepEntry_manifest_none o flag ls e key hk hm]; exact h
    · rcases hg : objGet ls.st.validators key with _ | stored
      · rw [stepEntry_create o flag ls e key m hk hm hg]
        exact (isSome_objGet_objSet _ _ _ _).mpr (Or.inr h)
      · by_cases hseq : stored.Sequence < m.Sequence
        · rw [stepEntry_update o flag ls e key m stored hk hm hg hseq]
          exact (isSome_objGet_objSet _ _ _ _).mpr (Or.inr h)
        · rw [stepEntry_stale o flag ls e key m stored hk hm hg hseq]; exact h

theorem stepEntry_seq_mono (o : NameOracle) (flag : Bool) (ls : LoopState)
    (e : RosterEntry) (k : String) (v : ValidatorEntry)
    (h : objGet ls.st.validators k = some v) :
    ∃ v', objGet ((stepEntry o flag ls e).1).st.validators k = some v' ∧
      v.Sequence ≤ v'.Sequence := by
  rcases hk : e.key with _ | key
  · rw [stepEntry_key_none o flag ls e hk]; exact ⟨v, h, le_refl _⟩
  · rcases hm : e.manifest with _ | m
    · rw [stepEntry_manifest_none o flag ls e key hk hm]
      exact ⟨v, h, le_refl _⟩
    · rcases hg : objGet ls.st.validators key with _ | stored
      · rw [stepEntry_create o flag ls e key m hk hm hg]
        have hne : k ≠ key := fun he => by
          rw [he, hg] at h
          exact Option.noConfusion h
        rw [objGet_objSet_ne _ _ _ _ hne]
        exact ⟨v, h, le_refl _⟩
      · by_cases hseq : stored.Sequence < m.Sequence
        · rw [stepEntry_update o flag ls e key m stored hk hm hg hseq]
          by_cases hke : k = key
          · subst hke
            rw [objGet_objSet_self]
            have hv : v = stored := by
              rw [h] at hg
              exact Option.some.inj hg
            exact ⟨⟨m.SigningPubKey, m.Sequence⟩, rfl,
              hv ▸ le_of_lt hseq⟩
          · rw [objGet_objSet_ne _ _ _ _ hke]
            exact ⟨v, h, le_refl _⟩
        · rw [stepEntry_stale o flag ls e key m stored hk hm hg hseq]
          exact ⟨v, h, le_refl _⟩

theorem stepEntry_events (o : NameOracle) (flag : Bool) (ls : LoopState)
    (e : RosterEntry) (ev : UnlData)
    (h : ev ∈ ((stepEntry o flag ls e).1).events) :
    ev ∈ ls.events ∨ ev.isDuringStartup = flag := by
  rcases hk : e.key with _ | key
  · rw [stepEntry_key_none o flag ls e hk] at h; exact Or.inl h
  · rcases hm : e.manifest with _ | m
    · rw [stepEntry_manifest_none o flag ls e key hk hm] at h; exact Or.inl h
    · rcases hg : objGet ls.st.validators key with _ | stored
      · rw [stepEntry_create o flag ls e key m hk hm hg] at h
        rcases List.mem_append.mp h with h1 | h1
        · exact Or.inl h1
        · right
          rw [List.mem_singleton.mp h1]
      · by_cases hseq : stored.Sequence < m.Sequence
        · rw [stepEntry_update o flag ls e key m stored hk hm hg hseq] at h
          rcases List.mem_append.mp h with h1 | h1
          · exact Or.inl h1
          · right
            rw [List.mem_singleton.mp h1]
        · rw [stepEntry_stale o flag ls e key m stored hk hm hg hseq] at h
          exact Or.inl h

theorem stepEntry_ok_toDelete (o : NameOracle) (flag : Bool) (ls : LoopState)
    (e : RosterEntry) (hok : (stepEntry o flag ls e).2 = true) :
    ∃ key, e.key = some key ∧
      ((stepEntry o flag ls e).1).toDelete = remove ls.toDelete key := by
  rcases hk : e.key with _ | key
  · rw [stepEntry_key_none o flag ls e hk] at hok
    exact absurd hok (by simp)
  · refine ⟨key, rfl, ?_⟩
    rcases hm : e.manifest with _ | m
    · rw [stepEntry_manifest_none o flag ls e key hk hm] at hok
      exact absurd hok (by simp)
    · rcases hg : objGet ls.st.validators key with _ | stored
      · rw [stepEntry_create o flag ls e key m hk hm hg]
      · by_cases hseq : stored.Sequence < m.Sequence
        · rw [stepEntry_update o flag ls e key m stored hk hm hg hseq]
        · rw [stepEntry_stale o flag ls e key m stored hk hm hg hseq]

/-! ### Invariants of the whole `getUNL` entry loop -/

theorem processEntries_last (o : NameOracle) (flag : Bool)
    (es : List RosterEntry) : ∀ ls : LoopState,
    ((processEntries o flag ls es).1).st.lastValidatorListSequence
      = ls.st.lastValidatorListSequence := by
  induction es with
  | nil => intro ls; rfl
  | cons e rest ih =>
    intro ls
    simp only [processEntries]
    by_cases hr : (stepEntry o flag ls e).2 = true
    · simp only [hr, if_true]
      rw [ih]
      exact stepEntry_last o flag ls e
    · simp only [hr, if_false, Bool.false_eq_true]
      exact stepEntry_last o flag ls e

theorem processEntries_validators_mono (o : NameOracle) (flag : Bool)
    (es : List RosterEntry) : ∀ ls : LoopState, ∀ k : String,
    (objGet ls.st.validators k).isSome →
    (objGet ((processEntries o flag ls es).1).st.validators k).isSome := by
  induction es with
  | nil => intro ls k h; exact h
  | cons e rest ih =>
    intro ls k h
    simp only [processEntries]
    by_cases hr : (stepEntry o flag ls e).2 = true
    · simp only [hr, if_true]
      exact ih _ k (stepEntry_validators_mono o flag ls e k h)
    · simp only [hr, if_false, Bool.false_eq_true]
      exact stepEntry_validators_mono o flag ls e k h

theorem processEntries_manifestKeys_mono (o : NameOracle) (flag : Bool)
    (es : List RosterEntry) : ∀ ls : LoopState, ∀ sk : String,
    (objGet ls.st.manifestKeys sk).isSome →
    (objGet ((processEntries o flag ls es).1).st.manifestKeys sk).isSome := by
  induction es with
  | nil => intro ls sk h; exact h
  | cons e rest ih =>
    intro ls sk h
    simp only [processEntries]
    by_cases hr : (stepEntry o flag ls e).2 = true
    · simp only [hr, if_true]
      exact ih _ sk (stepEntry_manifestKeys_mono o flag ls e sk h)
    · simp only [hr, if_false, Bool.false_eq_true]
      exact stepEntry_manifestKeys_mono o flag ls e sk h

theorem processEntries_seq_mono (o : NameOracle) (flag : Bool)
    (es : List RosterEntry) : ∀ ls : LoopState, ∀ k : String,
    ∀ v : ValidatorEntry, objGet ls.st.validators k = some v →
    ∃ v', objGet ((processEntries o flag ls es).1).st.validators k = some v' ∧
      v.Sequence ≤ v'.Sequence := by
  induction es with
  | nil => intro ls k v h; exact ⟨v, h, le_refl _⟩
  | cons e rest ih =>
    intro ls k v h
    simp only [processEntries]
    by_cases hr : (stepEntry o flag ls e).2 = true
    · simp only [hr, if_true]
      obtain ⟨v1, h1, hle1⟩ := stepEntry_seq_mono o flag ls e k v h
      obtain ⟨v2, h2, hle2⟩ := ih _ k v1 h1
      exact ⟨v2, h2, le_trans hle1 hle2⟩
    · simp only [hr, if_false, Bool.false_eq_true]
      exact stepEntry_seq_mono o flag ls e k v h

theorem processEntries_events (o : NameOracle) (flag : Bool)
    (es : List RosterEntry) : ∀ ls : LoopState, ∀ ev : UnlData,
    ev ∈ ((processEntries o flag ls es).1).events →
    ev ∈ ls.events ∨ ev.isDuringStartup = flag := by
  induction es with
  | nil => intro ls ev h; exact Or.inl h
  | cons e rest ih =>
    intro ls ev h
    simp only [processEntries] at h
    by_cases hr : (stepEntry o flag ls e).2 = true
    · rw [if_pos hr] at h
      rcases ih _ ev h with h1 | h1
      · exact stepEntry_events o flag ls e ev h1
      · exact Or.inr h1
    · rw [if_neg hr] at h
      exact stepEntry_events o flag ls e ev h

theorem processEntries_ok_validators_iff (o : NameOracle) (flag : Bool)
    (es : List RosterEntry) : ∀ ls : LoopState,
    (processEntries o flag ls es).2 = true → ∀ k : String,
    ((objGet ((processEntries o flag ls es).1).st.validators k).isSome ↔
      ((objGet ls.st.validators k).isSome ∨
        k ∈ es.filterMap RosterEntry.key)) := by
  induction es with
  | nil => intro ls _ k; simp [processEntries]
  | cons e rest ih =>
    intro ls hok k
    simp only [processEntries] at hok ⊢
    by_cases hr : (stepEntry o flag ls e).2 = true
    · rw [if_pos hr] at hok ⊢
      rw [ih _ hok k, stepEntry_ok_validators_iff o flag ls e hr k]
      obtain ⟨key, hkey, -⟩ := stepEntry_ok_toDelete o flag ls e hr
      simp only [List.filterMap_cons, hkey, List.mem_cons, Option.some.injEq]
      constructor
      · rintro ((h | rfl) | h)
        · exact Or.inl h
        · exact Or.inr (Or.inl rfl)
        · exact Or.inr (Or.inr h)
      · rintro (h | rfl | h)
        · exact Or.inl (Or.inl h)
        · exact Or.inl (Or.inr rfl)
        · exact Or.inr h
    · rw [if_neg hr] at hok
      exact absurd hok (by simp)

theorem processEntries_ok_toDelete (o : NameOracle) (flag : Bool)
    (es : List RosterEntry) : ∀ ls : LoopState,
    (processEntries o flag ls es).2 = true → ls.toDelete.Nodup →
    (((processEntries o flag ls es).1).toDelete.Nodup ∧
      ∀ k : String, (k ∈ ((processEntries o flag ls es).1).toDelete ↔
        (k ∈ ls.toDelete ∧ k ∉ es.filterMap RosterEntry.key))) := by
  induction es with
  | nil => intro ls _ hnd; simp [processEntries, hnd]
  | cons e rest ih =>
    intro ls hok hnd
    simp only [processEntries] at hok ⊢
    by_cases hr : (stepEntry o flag ls e).2 = true
    · rw [if_pos hr] at hok ⊢
      obtain ⟨key, hkey, htd⟩ := stepEntry_ok_toDelete o flag ls e hr
      have hnd1 : ((stepEntry o flag ls e).1).toDelete.Nodup := by
        rw [htd]; exact nodup_remove _ hnd key
      obtain ⟨hnd2, hmem⟩ := ih _ hok hnd1
      refine ⟨hnd2, fun k => ?_⟩
      rw [hmem k, htd, mem_remove_iff _ hnd k key]
      simp only [List.filterMap_cons, hkey, List.mem_cons]
      constructor
      · rintro ⟨⟨h1, h2⟩, h3⟩
        exact ⟨h1, fun hc => hc.elim (fun he => h2 he) (fun he => h3 he)⟩
      · rintro ⟨h1, h2⟩
        exact ⟨⟨h1, fun he => h2 (Or.inl he)⟩, fun he => h2 (Or.inr he)⟩
    · rw [if_neg hr] at hok
      exact absurd hok (by simp)

/-! ### Unfolding `getUNLApply` -/

theorem processEntries_singleton (o : NameOracle) (flag : Bool)
    (ls ls' : LoopState) (e : RosterEntry)
    (h : stepEntry o flag ls e = (ls', true)) :
    processEntries o flag ls [e] = (ls', true) := by
  simp [processEntries, h]

theorem getUNLApply_of_processEntries (o : NameOracle) (st : NetworkState)
    (vl : ValidatorList) (ls' : LoopState) (b : Bool)
    (hver : st.lastValidatorListSequence < vl.sequence)
    (h : processEntries o ((st.validators.map Prod.fst).isEmpty)
        ⟨⟨vl.sequence, st.validators, st.manifestKeys, st.names⟩,
          st.validators.map Prod.fst, []⟩ vl.validators = (ls', b)) :
    getUNLApply o st vl =
      if b then
        ⟨⟨ls'.st.lastValidatorListSequence,
            ls'.toDelete.foldl objDelete ls'.st.validators,
            ls'.st.manifestKeys, ls'.st.names⟩, ls'.events, true⟩
      else ⟨ls'.st, ls'.events, false⟩ := by
  simp only [getUNLApply]
  rw [if_neg (not_le.mpr hver)]
  simp only [h]

theorem getUNLApply_last_of_lt (o : NameOracle) (st : NetworkState)
    (vl : ValidatorList) (hver : st.lastValidatorListSequence < vl.sequence) :
    (getUNLApply o st vl).state.lastValidatorListSequence = vl.sequence := by
  rcases h : processEntries o ((st.validators.map Prod.fst).isEmpty)
      ⟨⟨vl.sequence, st.validators, st.manifestKeys, st.names⟩,
        st.validators.map Prod.fst, []⟩ vl.validators with ⟨ls', b⟩
  rw [getUNLApply_of_processEntries o st vl ls' b hver h]
  have hlast := processEntries_last o ((st.validators.map Prod.fst).isEmpty)
    vl.validators ⟨⟨vl.sequence, st.validators, st.manifestKeys, st.names⟩,
      st.validators.map Prod.fst, []⟩
  rw [h] at hlast
  cases b with
  | false => simpa using hlast
  | true => simpa using hlast

theorem getUNLApply_stale (o : NameOracle) (st : NetworkState)
    (vl : ValidatorList) (h : vl.sequence ≤ st.lastValidatorListSequence) :
    getUNLApply o st vl = ⟨st, [], true⟩ := by
  simp [getUNLApply, h]

theorem isEmpty_map_fst {α : Type} (l : List (String × α)) :
    (l.map Prod.fst).isEmpty = l.isEmpty := by
  cases l <;> rfl

theorem getUNLApply_manifestKeys_mono (o : NameOracle) (st : NetworkState)
    (vl : ValidatorList) (sk : String)
    (h : (objGet st.manifestKeys sk).isSome) :
    (objGet (getUNLApply o st vl).state.manifestKeys sk).isSome := by
  by_cases hver : vl.sequence ≤ st.lastValidatorListSequence
  · rw [getUNLApply_stale o st vl hver]
    exact h
  · rcases hpe : processEntries o ((st.validators.map Prod.fst).isEmpty)
        ⟨⟨vl.sequence, st.validators, st.manifestKeys, st.names⟩,
          st.validators.map Prod.fst, []⟩ vl.validators with ⟨ls', b⟩
    rw [getUNLApply_of_processEntries o st vl ls' b (not_le.mp hver) hpe]
    have hmono := processEntries_manifestKeys_mono o
      ((st.validators.map Prod.fst).isEmpty) vl.validators
      ⟨⟨vl.sequence, st.validators, st.manifestKeys, st.names⟩,
        st.validators.map Prod.fst, []⟩ sk h
    rw [hpe] at hmono
    cases b with
    | false => simpa using hmono
    | true => simpa using hmono

theorem getUNLApply_seq_mono (o : NameOracle) (st : NetworkState)
    (vl : ValidatorList) (k : String) (v v' : ValidatorEntry)
    (hbefore : objGet st.validators k = some v)
    (hafter : objGet (getUNLApply o st vl).state.validators k = some v') :
    v.Sequence ≤ v'.Sequence := by
  by_cases hver : vl.sequence ≤ st.lastValidatorListSequence
  · rw [getUNLApply_stale o st vl hver] at hafter
    have : v = v' := by
      rw [hbefore] at hafter
      exact Option.some.inj hafter
    rw [this]
  · rcases hpe : processEntries o ((st.validators.map Prod.fst).isEmpty)
        ⟨⟨vl.sequence, st.validators, st.manifestKeys, st.names⟩,
          st.validators.map Prod.fst, []⟩ vl.validators with ⟨ls', b⟩
    rw [getUNLApply_of_processEntries o st vl ls' b (not_le.mp hver) hpe]
      at hafter
    have hmono := processEntries_seq_mono o
      ((st.validators.map Prod.fst).isEmpty) vl.validators
      ⟨⟨vl.sequence, st.validators, st.manifestKeys, st.names⟩,
        st.validators.map Prod.fst, []⟩ k v hbefore
    rw [hpe] at hmono
    obtain ⟨v1, hv1, hle⟩ := hmono
    cases b with
    | false =>
      rw [if_neg Bool.false_ne_true] at hafter
      have : v1 = v' := by
        simp only at hv1
        rw [hv1] at hafter
        exact Option.some.inj hafter
      rw [← this]
      exact hle
    | true =>
      rw [if_pos rfl] at hafter
      have hsome : (objGet (ls'.toDelete.foldl objDelete ls'.st.validators)
          k).isSome := by
        rw [hafter]; rfl
      have hnotin : k ∉ ls'.toDelete :=
        ((isSome_objGet_foldl_objDelete ls'.toDelete ls'.st.validators
          k).mp hsome).2
      rw [objGet_foldl_objDelete_not_mem ls'.toDelete ls'.st.validators k
        hnotin] at hafter
      have : v1 = v' := by
        simp only at hv1
        rw [hv1] at hafter
        exact Option.some.inj hafter
      rw [← this]
      exact hle

theorem getUNLApply_events_flag (o : NameOracle) (st : NetworkState)
    (vl : ValidatorList) (ev : UnlData)
    (hev : ev ∈ (getUNLApply o st vl).events) :
    ev.isDuringStartup = st.validators.isEmpty := by
  by_cases hver : vl.sequence ≤ st.lastValidatorListSequence
  · rw [getUNLApply_stale o st vl hver] at hev
    exact absurd hev (List.not_mem_nil ev)
  · rcases hpe : processEntries o ((st.validators.map Prod.fst).isEmpty)
        ⟨⟨vl.sequence, st.validators, st.manifestKeys, st.names⟩,
          st.validators.map Prod.fst, []⟩ vl.validators with ⟨ls', b⟩
    rw [getUNLApply_of_processEntries o st vl ls' b (not_le.mp hver) hpe]
      at hev
    have hevents := processEntries_events o
      ((st.validators.map Prod.fst).isEmpty) vl.validators
      ⟨⟨vl.sequence, st.validators, st.manifestKeys, st.names⟩,
        st.validators.map Prod.fst, []⟩ ev
    rw [hpe] at hevents
    have hmem : ev ∈ ls'.events := by
      cases b with
      | false => simpa using hev
      | true => simpa using hev
    rcases hevents hmem with h1 | h1
    · exact absurd h1 (List.not_mem_nil ev)
    · rw [h1, isEmpty_map_fst]

/-! ### Claim theorems -/

/-- Claim C6: across applied roster batches the stored roster version
(`lastValidatorListSequence`) is non-decreasing, and a batch whose version is
less than or equal to the stored version is a complete no-op: the registry
state is returned unchanged and zero `onUnlData` events are emitted. -/
theorem rosterVersion_monotone (o : NameOracle) (st : NetworkState)
    (vl : ValidatorList) :
    st.lastValidatorListSequence ≤
      (getUNLApply o st vl).state.lastValidatorListSequence ∧
    (vl.sequence ≤ st.lastValidatorListSequence →
      getUNLApply o st vl = ⟨st, [], true⟩) := by
  constructor
  · by_cases hver : vl.sequence ≤ st.lastValidatorListSequence
    · rw [getUNLApply_stale o st vl hver]
    · rw [getUNLApply_last_of_lt o st vl (not_le.mp hver)]
      exact le_of_lt (not_le.mp hver)
  · intro h
    exact getUNLApply_stale o st vl h

/-- Witness for C6 at a concrete stale batch: the stored version 3 is kept
and the version-2 batch is discarded wholesale. -/
theorem rosterVersion_monotone_witness :
    (3 ≤ (getUNLApply oNone ⟨3, [("A", ⟨"k1", 5⟩)], [("k1", "A")], []⟩
        ⟨2, [⟨some "B", some ⟨"k2", 9⟩⟩]⟩).state.lastValidatorListSequence) ∧
    getUNLApply oNone ⟨3, [("A", ⟨"k1", 5⟩)], [("k1", "A")], []⟩
        ⟨2, [⟨some "B", some ⟨"k2", 9⟩⟩]⟩
      = ⟨⟨3, [("A", ⟨"k1", 5⟩)], [("k1", "A")], []⟩, [], true⟩ := by
  have h := rosterVersion_monotone oNone
    ⟨3, [("A", ⟨"k1", 5⟩)], [("k1", "A")], []⟩ ⟨2, [⟨some "B", some ⟨"k2", 9⟩⟩]⟩
  exact ⟨h.1, h.2 (by decide)⟩

/-- Claim C8: `applyStreamManifest` (`onManifestReceived`) never creates a new
identity — with the identity absent from `validators`, the call is a complete
no-op (no state change, no event) regardless of the sequence value. -/
theorem applyStreamManifest_unknown_noop (o : NameOracle) (st : NetworkState)
    (master_key signing_key : String) (seq : Nat)
    (h : objGet st.validators master_key = none) :
    onManifestReceived o st master_key seq signing_key = (st, []) := by
  simp [onManifestReceived, h]

/-- Witness for C8: a stream manifest for an untracked identity, carrying an
arbitrarily high sequence, leaves the empty registry untouched. -/
theorem applyStreamManifest_unknown_noop_witness :
    onManifestReceived oNone NetworkState.initial "A" 99 "k1"
      = (NetworkState.initial, []) :=
  applyStreamManifest_unknown_noop oNone NetworkState.initial "A" "k1" 99
    (by decide)

/-- Claim C10: delivering a validation vote mutates no registry state — the
`validators` map, the signing-key index `manifestKeys`, the `names` cache and
the stored roster version are all exactly unchanged by a
`validationReceived` message. -/
theorem vote_delivery_frame (o : NameOracle) (st : NetworkState) (now : Nat)
    (vm : ValidationMessage) :
    ((handleMessage o st now (.validationReceived vm)).1.validators
        = st.validators ∧
      (handleMessage o st now (.validationReceived vm)).1.manifestKeys
        = st.manifestKeys) ∧
    ((handleMessage o st now (.validationReceived vm)).1.names = st.names ∧
      (handleMessage o st now (.validationReceived vm)).1.lastValidatorListSequence
        = st.lastValidatorListSequence) :=
  ⟨⟨rfl, rfl⟩, ⟨rfl, rfl⟩⟩

/-- Claim C3 (amended): a delivered validation vote gets the receive
timestamp attached and is forwarded, exactly once and never dropped, straight
to the external validation callback, still carrying the raw signing key; no
signing-key resolution against the registry's index takes place. -/
theorem vote_forwarded_raw (o : NameOracle) (st : NetworkState) (now : Nat)
    (vm : ValidationMessage) :
    handleMessage o st now (.validationReceived vm)
      = (st, [.forwardedValidation { vm with timestamp := some now }]) := rfl

/-- Counterexample to C3 as stated: with the index mapping the vote's signing
key `k1` to identity `IDENT_A`, the delivered vote is forwarded bit-for-bit
the same as under an empty index, still carrying the raw key `k1` — no
resolution against the signing-key index is performed on the vote path. -/
theorem C3_vote_not_resolved :
    (handleMessage oNone ⟨0, [("IDENT_A", ⟨"k1", 5⟩)], [("k1", "IDENT_A")], []⟩
        7 (.validationReceived voteK1)).2
      = (handleMessage oNone NetworkState.initial 7
        (.validationReceived voteK1)).2 ∧
    (handleMessage oNone ⟨0, [("IDENT_A", ⟨"k1", 5⟩)], [("k1", "IDENT_A")], []⟩
        7 (.validationReceived voteK1)).2
      = [.forwardedValidation { voteK1 with timestamp := some 7 }] := by
  constructor
  · rfl
  · rfl

/-- Claim C5, evaluated at the failing input: with the heartbeat enabled (the
default), the `ValidationStream` constructor registers two `close` handlers,
so a single normal close frame invokes `onClose` twice (once is only the
`useHeartbeat = false` behaviour), and a heartbeat timeout followed by the
close event of the forced termination invokes it three times. -/
theorem onClose_double_fire :
    countOnClose (emitCloseEvent true 1000 "") = 2 ∧
    countOnClose (emitCloseEvent false 1000 "") = 1 ∧
    countOnClose (pingTimeoutExpired ++ emitCloseEvent true 1006 "") = 3 := by
  decide

/-- Claim C9 (amended): every event of an applied roster batch carries
`isDuringStartup = true` exactly when the `validators` map was empty
immediately before the batch — which recurs if a roster emptied the registry,
rather than holding only for the very first batch. -/
theorem startup_flag_iff_empty (o : NameOracle) (st : NetworkState)
    (vl : ValidatorList) (ev : UnlData)
    (hev : ev ∈ (getUNLApply o st vl).events) :
    ev.isDuringStartup = st.validators.isEmpty :=
  getUNLApply_events_flag o st vl ev hev

/-- Witness for C9 (amended): the one event of a batch applied to a non-empty
registry carries `isDuringStartup = false`. -/
theorem startup_flag_iff_empty_witness :
    (⟨false, false, true, "A", "A", "k2", 7, false⟩ : UnlData).isDuringStartup
      = ([("A", (⟨"k1", 5⟩ : ValidatorEntry))]).isEmpty :=
  startup_flag_iff_empty oNone ⟨1, [("A", ⟨"k1", 5⟩)], [("k1", "A")], []⟩
    ⟨2, [⟨some "A", some ⟨"k2", 7⟩⟩]⟩
    ⟨false, false, true, "A", "A", "k2", 7, false⟩ (by decide)

/-- Counterexample to C9 as stated: batch 1 populates the empty registry
(startup flag true), batch 2 empties it again, and the *subsequent* batch 3
once more emits its event flagged `isDuringStartup = true`, although the
claim requires every event of every batch after the first to carry
`false`. -/
theorem C9_startup_flag_reappears :
    ((getUNLApply oNone NetworkState.initial
        ⟨1, [⟨some "A", some ⟨"k1", 5⟩⟩]⟩).events.map
          UnlData.isDuringStartup = [true]) ∧
    ((getUNLApply oNone (getUNLApply oNone (getUNLApply oNone
        NetworkState.initial ⟨1, [⟨some "A", some ⟨"k1", 5⟩⟩]⟩).state
        ⟨2, []⟩).state
        ⟨3, [⟨some "B", some ⟨"k2", 5⟩⟩]⟩).events.map
          UnlData.isDuringStartup = [true]) := by
  decide

/-- Claim C1 (amended): the signing-key index, being a map, holds at most one
identity per signing key.  After a stream-path rotation the old signing key
resolves to not-found and the new one to the identity; after a roster-path
rotation the new signing key resolves to the identity, but the old key's
index entry is not removed (any signing key other than the new one keeps its
previous resolution). -/
theorem signingKeyIndex_rotation (o : NameOracle) (st : NetworkState)
    (master_key signing_key k2 sk : String) (seq q ver : Nat)
    (stored : ValidatorEntry)
    (hv : objGet st.validators master_key = some stored)
    (hseq : stored.Sequence < seq)
    (hne : stored.signing_key ≠ signing_key)
    (hq : stored.Sequence < q)
    (hver : st.lastValidatorListSequence < ver)
    (hsk : sk ≠ k2) :
    (objGet ((onManifestReceived o st master_key seq signing_key).1).manifestKeys
        stored.signing_key = none ∧
      objGet ((onManifestReceived o st master_key seq signing_key).1).manifestKeys
        signing_key = some master_key) ∧
    (objGet (getUNLApply o st
        ⟨ver, [⟨some master_key, some ⟨k2, q⟩⟩]⟩).state.manifestKeys k2
          = some master_key ∧
      objGet (getUNLApply o st
        ⟨ver, [⟨some master_key, some ⟨k2, q⟩⟩]⟩).state.manifestKeys sk
          = objGet st.manifestKeys sk) := by
  constructor
  · simp only [onManifestReceived, hv, if_pos hseq]
    constructor
    · rw [objGet_objSet_ne _ _ _ _ hne]
      exact objGet_objDelete_self st.manifestKeys stored.signing_key
    · exact objGet_objSet_self _ signing_key master_key
  · have hstep := stepEntry_update o ((st.validators.map Prod.fst).isEmpty)
      ⟨⟨ver, st.validators, st.manifestKeys, st.names⟩,
        st.validators.map Prod.fst, []⟩
      ⟨some master_key, some ⟨k2, q⟩⟩ master_key ⟨k2, q⟩ stored rfl rfl hv hq
    have hpe := processEntries_singleton o _ _ _ _ hstep
    have happ := getUNLApply_of_processEntries o st
      ⟨ver, [⟨some master_key, some ⟨k2, q⟩⟩]⟩ _ true hver hpe
    rw [happ, if_pos rfl]
    constructor
    · exact objGet_objSet_self _ k2 master_key
    · exact objGet_objSet_ne _ _ _ _ hsk

/-- Witness for C1 (amended) at a concrete rotation of identity A from `k1`
to `k9` (stream) and from `k1` to `k2` (single-entry roster batch). -/
theorem signingKeyIndex_rotation_witness :
    (objGet ((onManifestReceived oNone
        ⟨0, [("A", ⟨"k1", 5⟩)], [("k1", "A")], []⟩ "A" 6 "k9").1).manifestKeys
        "k1" = none ∧
      objGet ((onManifestReceived oNone
        ⟨0, [("A", ⟨"k1", 5⟩)], [("k1", "A")], []⟩ "A" 6 "k9").1).manifestKeys
        "k9" = some "A") ∧
    (objGet (getUNLApply oNone ⟨0, [("A", ⟨"k1", 5⟩)], [("k1", "A")], []⟩
        ⟨1, [⟨some "A", some ⟨"k2", 7⟩⟩]⟩).state.manifestKeys "k2"
          = some "A" ∧
      objGet (getUNLApply oNone ⟨0, [("A", ⟨"k1", 5⟩)], [("k1", "A")], []⟩
        ⟨1, [⟨some "A", some ⟨"k2", 7⟩⟩]⟩).state.manifestKeys "k1"
          = objGet ([("k1", "A")]) "k1") :=
  signingKeyIndex_rotation oNone ⟨0, [("A", ⟨"k1", 5⟩)], [("k1", "A")], []⟩
    "A" "k9" "k2" "k1" 6 7 1 ⟨"k1", 5⟩ (by decide) (by decide) (by decide)
    (by decide) (by decide) (by decide)

/-- Counterexample to C1 as stated: after a roster-path rotation of identity
A from signing key `k1` (sequence 5) to `k2` (sequence 7), the old signing
key `k1` still resolves to A in the signing-key index — it does not resolve
to not-found, because `getUNL` never deletes the old index entry. -/
theorem C1_roster_rotation_keeps_old_key :
    objGet (getUNLApply oNone
      (getUNLApply oNone NetworkState.initial
        ⟨1, [⟨some "A", some ⟨"k1", 5⟩⟩]⟩).state
      ⟨2, [⟨some "A", some ⟨"k2", 7⟩⟩]⟩).state.manifestKeys "k1"
    = some "A" := by decide

/-- Claim C2 (amended): a roster batch that passes the version check and
completes removes from the `validators` map exactly the tracked identities
absent from the entry list — an identity is tracked afterwards iff its key
occurs among the (decoded) entries, so identities present are retained even
with a stale sequence — but the removed identities' signing-key index
entries are NOT removed: every signing key resolvable before the batch is
still resolvable after it. -/
theorem applyRosterBatch_membership (o : NameOracle) (st : NetworkState)
    (vl : ValidatorList) (k sk : String)
    (hnd : (st.validators.map Prod.fst).Nodup)
    (hver : st.lastValidatorListSequence < vl.sequence)
    (hcomp : (getUNLApply o st vl).completed = true) :
    ((objGet (getUNLApply o st vl).state.validators k).isSome ↔
      k ∈ vl.validators.filterMap RosterEntry.key) ∧
    ((objGet st.manifestKeys sk).isSome →
      (objGet (getUNLApply o st vl).state.manifestKeys sk).isSome) := by
  refine ⟨?_, getUNLApply_manifestKeys_mono o st vl sk⟩
  rcases hpe : processEntries o ((st.validators.map Prod.fst).isEmpty)
      ⟨⟨vl.sequence, st.validators, st.manifestKeys, st.names⟩,
        st.validators.map Prod.fst, []⟩ vl.validators with ⟨ls', b⟩
  have happ := getUNLApply_of_processEntries o st vl ls' b hver hpe
  cases b with
  | false =>
    rw [happ] at hcomp
    simp at hcomp
  | true =>
    rw [happ, if_pos rfl]
    have hok : (processEntries o ((st.validators.map Prod.fst).isEmpty)
        ⟨⟨vl.sequence, st.validators, st.manifestKeys, st.names⟩,
          st.validators.map Prod.fst, []⟩ vl.validators).2 = true := by
      rw [hpe]
    have hvi := processEntries_ok_validators_iff o
      ((st.validators.map Prod.fst).isEmpty) vl.validators
      ⟨⟨vl.sequence, st.validators, st.manifestKeys, st.names⟩,
        st.validators.map Prod.fst, []⟩ hok k
    have htd := processEntries_ok_toDelete o
      ((st.validators.map Prod.fst).isEmpty) vl.validators
      ⟨⟨vl.sequence, st.validators, st.manifestKeys, st.names⟩,
        st.validators.map Prod.fst, []⟩ hok hnd
    rw [hpe] at hvi htd
    simp only at hvi htd
    obtain ⟨-, hmem⟩ := htd
    rw [isSome_objGet_foldl_objDelete, hvi, hmem k,
      isSome_objGet_iff_mem]
    constructor
    · rintro ⟨hA | hE, hTD⟩
      · by_cases hE : k ∈ vl.validators.filterMap RosterEntry.key
        · exact hE
        · exact absurd ⟨hA, hE⟩ hTD
      · exact hE
    · intro hE
      exact ⟨Or.inr hE, fun hc => hc.2 hE⟩

/-- Witness for C2 (amended): a batch listing only A removes B from the
`validators` map (B absent from entries) while B's signing-key index entry
`kb` survives. -/
theorem applyRosterBatch_membership_witness :
    ((objGet (getUNLApply oNone
        ⟨1, [("A", ⟨"k1", 5⟩), ("B", ⟨"kb", 1⟩)],
          [("k1", "A"), ("kb", "B")], []⟩
        ⟨2, [⟨some "A", some ⟨"k1", 5⟩⟩]⟩).state.validators "B").isSome ↔
      "B" ∈ ([⟨some "A", some ⟨"k1", 5⟩⟩] :
        List RosterEntry).filterMap RosterEntry.key) ∧
    ((objGet ([("k1", "A"), ("kb", "B")]) "kb").isSome →
      (objGet (getUNLApply oNone
        ⟨1, [("A", ⟨"k1", 5⟩), ("B", ⟨"kb", 1⟩)],
          [("k1", "A"), ("kb", "B")], []⟩
        ⟨2, [⟨some "A", some ⟨"k1", 5⟩⟩]⟩).state.manifestKeys "kb").isSome) :=
  applyRosterBatch_membership oNone
    ⟨1, [("A", ⟨"k1", 5⟩), ("B", ⟨"kb", 1⟩)], [("k1", "A"), ("kb", "B")], []⟩
    ⟨2, [⟨some "A", some ⟨"k1", 5⟩⟩]⟩ "B" "kb" (by decide) (by decide)
    (by decide)

/-- Counterexample to C2 as stated: after a completed batch that drops B, the
identity B is gone from `validators`, yet its signing-key index entry
`kb → B` is still present — the claim's "including removing their entries
from the signing-key index" does not hold. -/
theorem C2_roster_removal_keeps_index_entry :
    objGet (getUNLApply oNone (getUNLApply oNone NetworkState.initial
        ⟨1, [⟨some "A", some ⟨"k1", 5⟩⟩, ⟨some "B", some ⟨"kb", 1⟩⟩]⟩).state
        ⟨2, [⟨some "A", some ⟨"k1", 5⟩⟩]⟩).state.validators "B" = none ∧
    objGet (getUNLApply oNone (getUNLApply oNone NetworkState.initial
        ⟨1, [⟨some "A", some ⟨"k1", 5⟩⟩, ⟨some "B", some ⟨"kb", 1⟩⟩]⟩).state
        ⟨2, [⟨some "A", some ⟨"k1", 5⟩⟩]⟩).state.manifestKeys "kb"
      = some "B" := by decide

/-- Claim C4 (amended): a failed HTTPS request or a failed decode of the
roster blob leaves the registry exactly unchanged and emits no event — but
the batch is not applied as a single transaction: once the version check
passes, the stored roster version is advanced (to the batch's version)
before the entries are processed, and a per-entry decode failure aborts
mid-batch with earlier entries' updates already applied. -/
theorem fetch_failure_not_transactional (o : NameOracle)
    (st : NetworkState) (vl : ValidatorList) :
    getUNLRun o st .netFail = ⟨st, [], false⟩ ∧
    getUNLRun o st .blobDecodeFail = ⟨st, [], false⟩ ∧
    (st.lastValidatorListSequence < vl.sequence →
      (getUNLRun o st (.ok vl)).state.lastValidatorListSequence
        = vl.sequence) := by
  refine ⟨rfl, rfl, fun h => ?_⟩
  exact getUNLApply_last_of_lt o st vl h

/-- Witness for C4 (amended): network and blob-decode failures leave the
initial registry untouched, and a passing version check advances the stored
version to 1 even though the batch's only entry fails to decode. -/
theorem fetch_failure_not_transactional_witness :
    getUNLRun oNone NetworkState.initial .netFail
      = ⟨NetworkState.initial, [], false⟩ ∧
    getUNLRun oNone NetworkState.initial .blobDecodeFail
      = ⟨NetworkState.initial, [], false⟩ ∧
    (getUNLRun oNone NetworkState.initial
      (.ok ⟨1, [⟨some "A", none⟩]⟩)).state.lastValidatorListSequence = 1 := by
  have h := fetch_failure_not_transactional oNone NetworkState.initial
    ⟨1, [⟨some "A", none⟩]⟩
  exact ⟨h.1, h.2.1, h.2.2 (by decide)⟩

/-- Counterexample to C4 as stated: in a batch whose first entry decodes and
whose second entry's manifest fails to decode, the fetch aborts — yet the
first entry's validator is already installed, its signing key indexed, its
event emitted, and the roster version already advanced.  The registry is not
"left exactly as it was before the fetch". -/
theorem C4_mid_batch_abort :
    (getUNLApply oNone NetworkState.initial
        ⟨1, [⟨some "A", some ⟨"k1", 5⟩⟩, ⟨some "B", none⟩]⟩).completed
      = false ∧
    objGet (getUNLApply oNone NetworkState.initial
        ⟨1, [⟨some "A", some ⟨"k1", 5⟩⟩, ⟨some "B", none⟩]⟩).state.validators
        "A" = some ⟨"k1", 5⟩ ∧
    (getUNLApply oNone NetworkState.initial
        ⟨1, [⟨some "A", some ⟨"k1", 5⟩⟩,
          ⟨some "B", none⟩]⟩).state.lastValidatorListSequence = 1 ∧
    (getUNLApply oNone NetworkState.initial
        ⟨1, [⟨some "A", some ⟨"k1", 5⟩⟩, ⟨some "B", none⟩]⟩).events
      = [⟨true, true, true, "A", "A", "k1", 5, false⟩] := by decide

/-- Claim C7: per-identity sequence monotonicity.  A stream manifest whose
sequence is ≤ the stored one is a complete no-op; across a roster batch the
stored sequence of any identity tracked before and after never decreases;
and a roster entry carrying a stale sequence for a tracked identity leaves
its stored signing key and sequence unchanged and emits no event. -/
theorem sequence_monotone (o : NameOracle) (st : NetworkState)
    (master_key signing_key k k2 : String) (seq q ver : Nat)
    (stored v v' : ValidatorEntry) (vl : ValidatorList)
    (hnd : (st.validators.map Prod.fst).Nodup)
    (hv : objGet st.validators master_key = some stored)
    (hseq : seq ≤ stored.Sequence)
    (hq : q ≤ stored.Sequence)
    (hver : st.lastValidatorListSequence < ver)
    (hbefore : objGet st.validators k = some v)
    (hafter : objGet (getUNLApply o st vl).state.validators k = some v') :
    onManifestReceived o st master_key seq signing_key = (st, []) ∧
    v.Sequence ≤ v'.Sequence ∧
    ((getUNLApply o st
        ⟨ver, [⟨some master_key, some ⟨k2, q⟩⟩]⟩).events = [] ∧
      objGet (getUNLApply o st
        ⟨ver, [⟨some master_key, some ⟨k2, q⟩⟩]⟩).state.validators master_key
        = some stored) := by
  refine ⟨?_, getUNLApply_seq_mono o st vl k v v' hbefore hafter, ?_⟩
  · simp [onManifestReceived, hv, Nat.not_lt.mpr hseq]
  · have hstep := stepEntry_stale o ((st.validators.map Prod.fst).isEmpty)
      ⟨⟨ver, st.validators, st.manifestKeys, st.names⟩,
        st.validators.map Prod.fst, []⟩
      ⟨some master_key, some ⟨k2, q⟩⟩ master_key ⟨k2, q⟩ stored rfl rfl hv
      (Nat.not_lt.mpr hq)
    have hpe := processEntries_singleton o _ _ _ _ hstep
    have happ := getUNLApply_of_processEntries o st
      ⟨ver, [⟨some master_key, some ⟨k2, q⟩⟩]⟩ _ true hver hpe
    rw [happ, if_pos rfl]
    refine ⟨rfl, ?_⟩
    have hnotin : master_key ∉ remove (st.validators.map Prod.fst)
        master_key := fun hmem =>
      ((mem_remove_iff (st.validators.map Prod.fst) hnd master_key
        master_key).mp hmem).2 rfl
    rw [objGet_foldl_objDelete_not_mem _ _ _ hnotin]
    exact hv

/-- Witness for C7: identity A stored at sequence 5; a stream manifest at
sequence 5 is a no-op, a roster update to sequence 7 only raises the
sequence, and a single-entry roster batch at sequence 4 changes nothing and
emits nothing. -/
theorem sequence_monotone_witness :
    onManifestReceived oNone ⟨0, [("A", ⟨"k1", 5⟩)], [("k1", "A")], []⟩
        "A" 5 "k9"
      = (⟨0, [("A", ⟨"k1", 5⟩)], [("k1", "A")], []⟩, []) ∧
    5 ≤ 7 ∧
    ((getUNLApply oNone ⟨0, [("A", ⟨"k1", 5⟩)], [("k1", "A")], []⟩
        ⟨1, [⟨some "A", some ⟨"k3", 4⟩⟩]⟩).events = [] ∧
      objGet (getUNLApply oNone ⟨0, [("A", ⟨"k1", 5⟩)], [("k1", "A")], []⟩
        ⟨1, [⟨some "A", some ⟨"k3", 4⟩⟩]⟩).state.validators "A"
        = some ⟨"k1", 5⟩) := by
  have h := sequence_monotone oNone
    ⟨0, [("A", ⟨"k1", 5⟩)], [("k1", "A")], []⟩ "A" "k9" "A" "k3" 5 4 1
    ⟨"k1", 5⟩ ⟨"k1", 5⟩ ⟨"k2", 7⟩ ⟨1, [⟨some "A", some ⟨"k2", 7⟩⟩]⟩
    (by decide) (by decide) (by decide) (by decide) (by decide) (by decide)
    (by decide)
  exact ⟨h.1, h.2.1, h.2.2⟩

end ValidationLogger
